import Mathlib

/-!
The egressip-ipam-operator: host-subnet and namespace reconciliation.

A shallow embedding of `pkg/controller/egressipam/hostsubnet.go` and
`pkg/controller/namespace/namespace_controller.go`, followed by the properties
proved about them.

Conventions of the embedding.

* A Go slice is `Slice α := Option (List α)`; `none` is the nil slice and
  `some []` the empty, non-nil slice.
* A Go `map[string]V` is an association list `List (String × V)`; the order of
  the list stands for the (unspecified) iteration order of the map, and for the
  goroutine sweeps also for the order in which the units reach the API client.
* The API client is an explicit state-passing record of functions; every call
  to `Update` is appended to a log together with its outcome.
* The fan-in of the goroutine sweeps takes the arrival order of the results on
  the channel as an explicit schedule.
-/

set_option autoImplicit false

namespace EgressOperator

/-! ## Go values -/

/-- Go slice: `none` is the nil slice. -/
abbrev Slice (α : Type) := Option (List α)

/-- Elements of a slice; the nil slice has none. -/
def Slice.elems {α : Type} : Slice α → List α
  | none => []
  | some xs => xs

/-- Go's builtin `append(s, x)`: the result is never nil. -/
def goAppend {α : Type} (s : Slice α) (x : α) : Slice α :=
  some (s.elems ++ [x])

/-- The loop `var out []T; for _, x := range xs { out = append(out, T(x)) }`. -/
def appendEach {α : Type} (xs : List α) : Slice α :=
  xs.foldl goAppend none

/-- Go's `map[string]V`. -/
abbrev GoMap (V : Type) := List (String × V)

/-- Index expression `m[k]`: the zero value when the key is absent. -/
def GoMap.get {V : Type} [Inhabited V] (m : GoMap V) (k : String) : V :=
  (m.lookup k).getD default

/-- Comma-ok index expression `_, ok := m[k]`. -/
def GoMap.has {V : Type} (m : GoMap V) (k : String) : Bool :=
  (m.lookup k).isSome

/-- Builtin `delete(m, k)`. -/
def GoMap.delete {V : Type} (m : GoMap V) (k : String) : GoMap V :=
  m.filter (fun e => !(e.1 == k))

/-- Assignment `m[k] = v`. -/
def GoMap.set {V : Type} (m : GoMap V) (k : String) (v : V) : GoMap V :=
  if m.has k then m.map (fun e => if e.1 == k then (k, v) else e) else m ++ [(k, v)]

/-- What `reflect` sees of a slice whose elements have underlying type string:
the name of the element type and the slice itself. -/
structure DynSlice where
  elemType : String
  val : Slice String
deriving DecidableEq, Repr

/-- Go's `reflect.DeepEqual` on two such slices: values of distinct types are
never deeply equal; a nil and a non-nil slice are never deeply equal; otherwise
the elements are compared position by position. -/
def reflectDeepEqual (x y : DynSlice) : Bool :=
  if x.elemType ≠ y.elemType then false
  else
    match x.val, y.val with
    | none, none => true
    | some a, some b => decide (a = b)
    | _, _ => false

/-- The composite literal `[]string{}` as an interface value. -/
def emptyStringSlice : DynSlice := ⟨"string", some []⟩

/-! ## The string-set library (`github.com/scylladb/go-set/strset`) -/

/-- A string set, kept as a duplicate-free list. -/
abbrev StrSet := List String

/-- Go's `strset.New(items...)`. -/
def strsetNew (items : List String) : StrSet := items.dedup

/-- Go's `(*Set).IsEqual`: same size, and every item of `t` is in `s`. -/
def strsetIsEqual (s t : StrSet) : Bool :=
  decide (s.length = t.length) && t.all (fun item => decide (item ∈ s))

/-! ## The aggregate error (`github.com/hashicorp/go-multierror`) -/

/-- Go's `multierror.Error`: the list of member errors. -/
structure MultiError (ε : Type) where
  Errors : List ε
deriving DecidableEq, Repr

/-- Go's `multierror.Append(result, err)` for a single plain error: a nil error
is skipped. -/
def multierrorAppend {ε : Type} (result : MultiError ε) (err : Option ε) : MultiError ε :=
  match err with
  | none => result
  | some e => ⟨result.Errors ++ [e]⟩

/-- Go's `(*Error).ErrorOrNil`. -/
def MultiError.ErrorOrNil {ε : Type} (result : MultiError ε) : Option (MultiError ε) :=
  if result.Errors.length = 0 then none else some result

/-! ## The address library (`net`) -/

/-- The three functions of Go's `net` package the matcher uses. `ParseCIDR`
yields `none` for its error result, `ParseIP` yields `none` for a nil `IP`. -/
structure NetLib (N A : Type) where
  ParseCIDR : String → Option N
  ParseIP : String → Option A
  Contains : N → Option A → Bool

/-! ### The IPv4 dotted-decimal fragment of `net`

The general statements below hold for every `NetLib`. This fragment makes the
matcher executable on dotted-decimal text; any other text (IPv6 included) is
unparsable in it. -/

/-- Split a character list at every occurrence of `sep`. -/
def splitAt (sep : Char) : List Char → List (List Char)
  | [] => [[]]
  | c :: cs =>
    if c = sep then [] :: splitAt sep cs
    else
      match splitAt sep cs with
      | [] => [[c]]
      | w :: ws => (c :: w) :: ws

/-- A non-empty run of decimal digits read as a number. -/
def parseDec (cs : List Char) : Option Nat :=
  if cs = [] then none
  else cs.foldl (fun acc c => acc.bind (fun n =>
    if c.isDigit then some (10 * n + (c.toNat - 48)) else none)) (some 0)

/-- One field of a dotted-decimal address: at most three digits, no leading
zero, at most 255. -/
def parseOctet (cs : List Char) : Option Nat :=
  if cs.length > 3 then none
  else if cs.length > 1 ∧ cs.head? = some '0' then none
  else (parseDec cs).bind (fun n => if n ≤ 255 then some n else none)

/-- Four dotted fields as a 32-bit number. -/
def parseIPv4 (s : String) : Option Nat :=
  match (splitAt '.' s.data).map parseOctet with
  | [some a, some b, some c, some d] => some (((a * 256 + b) * 256 + c) * 256 + d)
  | _ => none

/-- An IPv4 network: the masked base address and the prefix length. -/
structure IPv4Net where
  base : Nat
  bits : Nat
deriving DecidableEq, Repr

/-- Parse `a.b.c.d/n` with `n ≤ 32`; the base address is masked to the prefix. -/
def parseCIDRv4 (s : String) : Option IPv4Net :=
  match splitAt '/' s.data with
  | [addr, mask] =>
    match parseIPv4 (String.mk addr), parseDec mask with
    | some a, some n =>
      if n ≤ 32 then some ⟨a / 2 ^ (32 - n) * 2 ^ (32 - n), n⟩ else none
    | _, _ => none
  | _ => none

/-- Whether the address has the network's prefix; a nil address never has. -/
def containsV4 (n : IPv4Net) : Option Nat → Bool
  | none => false
  | some a => decide (a / 2 ^ (32 - n.bits) = n.base / 2 ^ (32 - n.bits))

/-- The IPv4 dotted-decimal fragment of `net`. -/
def netV4 : NetLib IPv4Net Nat := ⟨parseCIDRv4, parseIPv4, containsV4⟩

/-! ## API objects -/

/-- The fields of `metav1.ObjectMeta` that identify and decorate an object. -/
structure ObjectMeta where
  Name : String
  Labels : GoMap String
  Annotations : GoMap String
  ResourceVersion : String
deriving DecidableEq, Repr, Inhabited

/-- OpenShift's `network/v1.HostSubnet`. -/
structure HostSubnet where
  meta : ObjectMeta
  Host : String
  HostIP : String
  Subnet : String
  EgressIPs : Slice String
  EgressCIDRs : Slice String
deriving DecidableEq, Repr, Inhabited

/-- Go's `hostsubnet.GetName()`. -/
def HostSubnet.GetName (h : HostSubnet) : String := h.meta.Name

/-- Go's generated `DeepCopy`: an equal value in fresh storage. -/
def HostSubnet.DeepCopy (h : HostSubnet) : HostSubnet := h

/-- OpenShift's `network/v1.NetNamespace`. -/
structure NetNamespace where
  meta : ObjectMeta
  NetName : String
  NetID : Nat
  EgressIPs : Slice String
deriving DecidableEq, Repr, Inhabited

/-- Kubernetes' `core/v1.Namespace`. -/
structure Namespace where
  meta : ObjectMeta
deriving DecidableEq, Repr, Inhabited

/-- One entry of `EgressIPAM.Spec.CIDRAssignments`. -/
structure CIDRAssignment where
  LabelValue : String
  CIDR : String
deriving DecidableEq, Repr

/-- The policy object: its name and its ordered CIDR entries. -/
structure EgressIPAM where
  Name : String
  CIDRAssignments : List CIDRAssignment
deriving DecidableEq, Repr

/-- The per-pass working set. -/
structure ReconcileContext where
  AllHostSubnets : GoMap HostSubnet
  SelectedHostSubnets : GoMap HostSubnet
  SelectedNodesByCIDR : GoMap (List String)
  FinallyAssignedIPsByNode : GoMap (List String)
deriving DecidableEq, Repr

/-! ## hostsubnet.go -/

section Matcher

variable {N A : Type}

/-- The loop of `matchesHostSubnet` over the remaining entries. -/
def matchesHostSubnetLoop (lib : NetLib N A) (hostIP : String) :
    List CIDRAssignment → Bool × String
  | [] => (false, "")
  | cIDRAssignment :: rest =>
    match lib.ParseCIDR cIDRAssignment.CIDR with
    | none => (false, "")
    | some cidr =>
      if lib.Contains cidr (lib.ParseIP hostIP) then (true, cIDRAssignment.CIDR)
      else matchesHostSubnetLoop lib hostIP rest

/-- Whether this EgressIPAM matches this hostSubnet and with which CIDR. -/
def matchesHostSubnet (lib : NetLib N A) (egressIPAM : EgressIPAM) (hostsubnet : HostSubnet) :
    Bool × String :=
  matchesHostSubnetLoop lib hostsubnet.HostIP egressIPAM.CIDRAssignments

/-- The entry parses as a network prefix. -/
def wellFormed (lib : NetLib N A) (e : CIDRAssignment) : Bool :=
  (lib.ParseCIDR e.CIDR).isSome

/-- The entry parses and its range contains the address. -/
def inRange (lib : NetLib N A) (hostIP : String) (e : CIDRAssignment) : Bool :=
  match lib.ParseCIDR e.CIDR with
  | none => false
  | some cidr => lib.Contains cidr (lib.ParseIP hostIP)

/-- The answer for the first entry of a list whose range contains the address. -/
def firstMatch (lib : NetLib N A) (hostIP : String) (entries : List CIDRAssignment) :
    Bool × String :=
  match entries.find? (inRange lib hostIP) with
  | some e => (true, e.CIDR)
  | none => (false, "")

end Matcher

/-! ## The API client -/

/-- One call of `Update` on a host subnet, with the error it returned. -/
abbrev UpdateLog (ε : Type) := List (HostSubnet × Option ε)

/-- The controller-runtime client, as far as the two controllers use it. The
state `σ` is whatever the API server holds; `none` is a nil error. -/
structure Client (σ ε : Type) where
  ListHostSubnets : σ → Except ε (List HostSubnet)
  UpdateHostSubnet : σ → HostSubnet → σ × Option ε
  GetNetNamespace : σ → String → Except ε NetNamespace
  UpdateNetNamespace : σ → NetNamespace → σ × Option ε
  UpdateNamespace : σ → Namespace → σ × Option ε

/-- What one goroutine of a sweep leaves behind: the new server state, the
update it issued (if any) and the value it sends on the results channel. -/
structure UnitRun (σ ε : Type) where
  state : σ
  log : UpdateLog ε
  sent : Option ε

/-- What a started fan-out leaves behind: the server state, all updates issued
and the value each unit sends, in the order of the units. -/
structure FanOut (σ ε : Type) where
  state : σ
  log : UpdateLog ε
  sent : List (Option ε)

/-- What a sweep leaves behind: the server state, all updates issued, the
values received on the results channel, the returned error and the context. -/
structure SweepRun (σ ε R : Type) where
  state : σ
  log : UpdateLog ε
  received : List (Option ε)
  err : R
  rc : ReconcileContext

section Sweeps

variable {σ ε : Type}

/-- Start one unit per map entry, in the order of the list. -/
def fanOut (unit : σ → String → HostSubnet → UnitRun σ ε) :
    σ → GoMap HostSubnet → FanOut σ ε
  | s, [] => ⟨s, [], []⟩
  | s, (k, v) :: rest =>
    let u := unit s k v
    let r := fanOut unit u.state rest
    ⟨r.state, u.log ++ r.log, u.sent :: r.sent⟩

/-- The coordinator's loop `for range m { <-results }` with `n = len(m)`:
the `j`-th receive gets what unit `sched[j]` sent. -/
def receiveAll (n : Nat) (sched : List Nat) (sent : List (Option ε)) : List (Option ε) :=
  (List.range n).map (fun j => sent.getD (sched.getD j j) none)

/-- Fold `multierror.Append` over the received values and take `ErrorOrNil`. -/
def aggregate (received : List (Option ε)) : Option (MultiError ε) :=
  (received.foldl multierrorAppend ⟨[]⟩).ErrorOrNil

/-- Go's `GetHostSubnetCIDRsAsStrings`. -/
def GetHostSubnetCIDRsAsStrings (CIDRs : Slice String) : Slice String :=
  appendEach CIDRs.elems

/-- Go's `GetHostSubnetCIDRs`. -/
def GetHostSubnetCIDRs (CIDRs : List String) : Slice String :=
  appendEach CIDRs

/-- Go's `GetHostHostSubnetEgressIPsAsStrings`. -/
def GetHostHostSubnetEgressIPsAsStrings (IPs : Slice String) : Slice String :=
  appendEach IPs.elems

/-- Go's `GetHostHostSubnetEgressIPs`. -/
def GetHostHostSubnetEgressIPs (IPs : List String) : Slice String :=
  appendEach IPs

/-- The goroutine body of `reconcileHSAssignedIPs`. -/
def reconcileHSAssignedIPsUnit (client : Client σ ε) (rc : ReconcileContext) (s : σ)
    (hostsubnetname : String) (hostsubnet : HostSubnet) : UnitRun σ ε :=
  let hostsubnetnamec := hostsubnetname
  let hostsubnetc := hostsubnet.DeepCopy
  if !strsetIsEqual (strsetNew (rc.FinallyAssignedIPsByNode.get hostsubnetnamec))
      (strsetNew (GetHostHostSubnetEgressIPsAsStrings hostsubnetc.EgressIPs).elems) then
    let hostsubnetc :=
      { hostsubnetc with
        EgressIPs := GetHostHostSubnetEgressIPs (rc.FinallyAssignedIPsByNode.get hostsubnetnamec) }
    match client.UpdateHostSubnet s hostsubnetc with
    | (s1, some err) => ⟨s1, [(hostsubnetc, some err)], some err⟩
    | (s1, none) => ⟨s1, [(hostsubnetc, none)], none⟩
  else ⟨s, [], none⟩

/-- Ensures that hostsubnets have the correct egressIPs. -/
def reconcileHSAssignedIPs (client : Client σ ε) (rc : ReconcileContext) (s : σ)
    (sched : List Nat) : SweepRun σ ε (Option (MultiError ε)) :=
  let started := fanOut (reconcileHSAssignedIPsUnit client rc) s rc.SelectedHostSubnets
  let received := receiveAll rc.SelectedHostSubnets.length sched started.sent
  ⟨started.state, started.log, received, aggregate received, rc⟩

/-- The inner loop of `assignCIDRsToHostSubnets` over the nodes of one CIDR;
a returned error ends the whole function. -/
def assignCIDRNodes (client : Client σ ε) (rc : ReconcileContext) (cidr : String) :
    σ → List String → UnitRun σ ε
  | s, [] => ⟨s, [], none⟩
  | s, node :: nodes =>
    let cidrs := [cidr]
    let hostsubnet := rc.AllHostSubnets.get node
    if !strsetIsEqual (strsetNew (GetHostSubnetCIDRsAsStrings hostsubnet.EgressCIDRs).elems)
        (strsetNew cidrs) then
      let hostsubnet := { hostsubnet with EgressCIDRs := GetHostSubnetCIDRs cidrs }
      match client.UpdateHostSubnet s hostsubnet with
      | (s1, some err) => ⟨s1, [(hostsubnet, some err)], some err⟩
      | (s1, none) =>
        let r := assignCIDRNodes client rc cidr s1 nodes
        ⟨r.state, (hostsubnet, none) :: r.log, r.sent⟩
    else assignCIDRNodes client rc cidr s nodes

/-- The outer loop of `assignCIDRsToHostSubnets` over the CIDRs of the plan. -/
def assignCIDRsLoop (client : Client σ ε) (rc : ReconcileContext) :
    σ → GoMap (List String) → UnitRun σ ε
  | s, [] => ⟨s, [], none⟩
  | s, (cidr, nodes) :: rest =>
    match assignCIDRNodes client rc cidr s nodes with
    | ⟨s1, log, some err⟩ => ⟨s1, log, some err⟩
    | ⟨s1, log, none⟩ =>
      let r := assignCIDRsLoop client rc s1 rest
      ⟨r.state, log ++ r.log, r.sent⟩

/-- Ensures that hostsubnets have the correct CIDR. -/
def assignCIDRsToHostSubnets (client : Client σ ε) (rc : ReconcileContext) (s : σ) :
    SweepRun σ ε (Option ε) :=
  let r := assignCIDRsLoop client rc s rc.SelectedNodesByCIDR
  ⟨r.state, r.log, [], r.sent, rc⟩

/-- Go's `getAllHostSubnets`: list every host subnet and key it by name. -/
def getAllHostSubnets (client : Client σ ε) (s : σ) : GoMap HostSubnet × Option ε :=
  match client.ListHostSubnets s with
  | .error err => ([], some err)
  | .ok items =>
    (items.foldl (fun selectedHostSubnets hostsubnet =>
      selectedHostSubnets.set hostsubnet.GetName hostsubnet) [], none)

/-- The goroutine body of `removeHostsubnetAssignedIPsAndCIDRs`. -/
def removeHostsubnetAssignedIPsAndCIDRsUnit (client : Client σ ε) (s : σ)
    (_hostsubnetname : String) (hostsubnet : HostSubnet) : UnitRun σ ε :=
  let hostsubnetc := hostsubnet.DeepCopy
  if !reflectDeepEqual ⟨"ocpnetv1.HostSubnetEgressCIDR", hostsubnetc.EgressCIDRs⟩ emptyStringSlice
      || !reflectDeepEqual ⟨"ocpnetv1.HostSubnetEgressIP", hostsubnetc.EgressIPs⟩ emptyStringSlice then
    let hostsubnetc := { hostsubnetc with EgressCIDRs := some [], EgressIPs := some [] }
    match client.UpdateHostSubnet s hostsubnetc with
    | (s1, some err) => ⟨s1, [(hostsubnetc, some err)], some err⟩
    | (s1, none) => ⟨s1, [(hostsubnetc, none)], none⟩
  else ⟨s, [], none⟩

/-- Clears the egress IPs and CIDRs of the host subnets of the context. -/
def removeHostsubnetAssignedIPsAndCIDRs (client : Client σ ε) (rc : ReconcileContext) (s : σ)
    (sched : List Nat) : SweepRun σ ε (Option (MultiError ε)) :=
  let started := fanOut (removeHostsubnetAssignedIPsAndCIDRsUnit client) s rc.SelectedHostSubnets
  let received := receiveAll rc.SelectedHostSubnets.length sched started.sent
  ⟨started.state, started.log, received, aggregate received, rc⟩

/-- Go's `getHostSubnetNames`. -/
def getHostSubnetNames (hostSubnets : GoMap HostSubnet) : Slice String :=
  appendEach (hostSubnets.map (fun e => e.2.GetName))

/-! ## namespace_controller.go -/

/-- One write of the namespace controller. -/
inductive Write where
  | netNamespace (obj : NetNamespace)
  | namespaceObj (obj : Namespace)
deriving DecidableEq, Repr

/-- What a cleanup leaves behind: the server state, the writes issued with
their outcomes, and the returned error. -/
structure CleanUpRun (σ ε : Type) where
  state : σ
  writes : List (Write × Option ε)
  err : Option ε

/-- Go's `cleanUpNamespaceAndNetNamespace`; `assocKey` is the value of the
constant `egressipam.NamespaceAssociationAnnotation`. -/
def cleanUpNamespaceAndNetNamespace (client : Client σ ε) (assocKey : String) (s : σ)
    (ns : Namespace) : CleanUpRun σ ε :=
  match client.GetNetNamespace s ns.meta.Name with
  | .error err => ⟨s, [], some err⟩
  | .ok netNamespace =>
    let first : CleanUpRun σ ε :=
      if !reflectDeepEqual ⟨"ocpnetv1.NetNamespaceEgressIP", netNamespace.EgressIPs⟩
          emptyStringSlice then
        let netNamespace := { netNamespace with EgressIPs := some [] }
        match client.UpdateNetNamespace s netNamespace with
        | (s1, err) => ⟨s1, [(Write.netNamespace netNamespace, err)], err⟩
      else ⟨s, [], none⟩
    match first.err with
    | some err => ⟨first.state, first.writes, some err⟩
    | none =>
      if ns.meta.Annotations.has assocKey then
        let ns := { ns with meta := { ns.meta with Annotations := ns.meta.Annotations.delete assocKey } }
        match client.UpdateNamespace first.state ns with
        | (s2, err) => ⟨s2, first.writes ++ [(Write.namespaceObj ns, err)], err⟩
      else ⟨first.state, first.writes, none⟩

end Sweeps

/-! ## A record store as API server -/

/-- The errors of the record store. -/
inductive StoreError where
  | notFound (name : String)
deriving DecidableEq, Repr

/-- Replace the stored record of the same name. -/
def storeReplace (store : List HostSubnet) (hostsubnet : HostSubnet) : List HostSubnet :=
  store.map (fun r => if r.GetName = hostsubnet.GetName then hostsubnet else r)

/-- A client whose server state is the list of stored host subnets: an update
of a stored name succeeds and replaces the stored record, an update of an
unknown name fails. -/
def storeClient : Client (List HostSubnet) StoreError where
  ListHostSubnets store := .ok store
  UpdateHostSubnet store hostsubnet :=
    if store.any (fun r => decide (r.GetName = hostsubnet.GetName)) then
      (storeReplace store hostsubnet, none)
    else (store, some (.notFound hostsubnet.GetName))
  GetNetNamespace _ name := .error (.notFound name)
  UpdateNetNamespace store obj := (store, some (.notFound obj.meta.Name))
  UpdateNamespace store obj := (store, some (.notFound obj.meta.Name))

/-! ## Specification-side definitions -/

section SpecDefs

variable {σ ε : Type}

/-- What the IP sweep writes for one selected record, if anything. -/
def plannedIPUpdate (rc : ReconcileContext) (name : String) (hostsubnet : HostSubnet) :
    Option HostSubnet :=
  if (rc.FinallyAssignedIPsByNode.get name).toFinset = hostsubnet.EgressIPs.elems.toFinset then none
  else
    some { hostsubnet with
      EgressIPs := if (rc.FinallyAssignedIPsByNode.get name).isEmpty then none
                   else some (rc.FinallyAssignedIPsByNode.get name) }

/-- The record with both egress lists set to the empty slice. -/
def cleared (hostsubnet : HostSubnet) : HostSubnet :=
  { hostsubnet with EgressCIDRs := some [], EgressIPs := some [] }

/-- Send the records to the client one after the other, each call starting
from the server state the previous call left: the final server state, and
every record sent together with the answer the client gave for it. -/
def issueAll (client : Client σ ε) : σ → List HostSubnet → σ × UpdateLog ε
  | s, [] => (s, [])
  | s, u :: rest =>
    ((issueAll client (client.UpdateHostSubnet s u).1 rest).1,
      (u, (client.UpdateHostSubnet s u).2) :: (issueAll client (client.UpdateHostSubnet s u).1 rest).2)

/-- The plan as a sequence of (CIDR, node) pairs, in the order the nested
loops of `assignCIDRsToHostSubnets` visit them. -/
def plannedJobs (rc : ReconcileContext) : List (String × String) :=
  rc.SelectedNodesByCIDR.flatMap (fun e => e.2.map (fun node => (e.1, node)))

/-- The node's assigned-CIDR set differs from `{cidr}`. -/
def cidrDiffers (rc : ReconcileContext) (job : String × String) : Bool :=
  decide ((rc.AllHostSubnets.get job.2).EgressCIDRs.elems.toFinset ≠ {job.1})

/-- The record the CIDR sweep writes for a (CIDR, node) pair. -/
def cidrUpdate (rc : ReconcileContext) (job : String × String) : HostSubnet :=
  { rc.AllHostSubnets.get job.2 with EgressCIDRs := some [job.1] }

/-- The updates the CIDR sweep has to attempt: one per pair whose node's
assigned-CIDR set differs from the CIDR, in visiting order. -/
def cidrWanted (rc : ReconcileContext) : List HostSubnet :=
  ((plannedJobs rc).filter (cidrDiffers rc)).map (cidrUpdate rc)

/-- The two loops of `assignCIDRsToHostSubnets` as one loop over the pairs. -/
def assignJobs (client : Client σ ε) (rc : ReconcileContext) :
    σ → List (String × String) → UnitRun σ ε
  | s, [] => ⟨s, [], none⟩
  | s, job :: rest =>
    if cidrDiffers rc job then
      match client.UpdateHostSubnet s (cidrUpdate rc job) with
      | (s1, some err) => ⟨s1, [(cidrUpdate rc job, some err)], some err⟩
      | (s1, none) =>
        let r := assignJobs client rc s1 rest
        ⟨r.state, (cidrUpdate rc job, none) :: r.log, r.sent⟩
    else assignJobs client rc s rest

/-- Every entry of the map is a record of the store, filed under its own name
(what `getAllHostSubnets` builds from a list of the store). -/
def ReadFrom (store : List HostSubnet) (m : GoMap HostSubnet) : Prop :=
  ∀ e ∈ m, e.2 ∈ store ∧ e.2.GetName = e.1

instance (store : List HostSubnet) (m : GoMap HostSubnet) : Decidable (ReadFrom store m) := by
  unfold ReadFrom
  infer_instance

/-- The context of a next pass over the same plan: all records are read again
from the store through `getAllHostSubnets`, and the same names are selected. -/
def rereadContext (rc : ReconcileContext) (store : List HostSubnet) : ReconcileContext :=
  { rc with
    AllHostSubnets := (getAllHostSubnets storeClient store).1,
    SelectedHostSubnets :=
      (getAllHostSubnets storeClient store).1.filter
        (fun e => rc.SelectedHostSubnets.has e.1) }

end SpecDefs

/-! ## Example data -/

/-- The policy of the example scenario. -/
def examplePolicy : EgressIPAM := ⟨"p", [⟨"a", "10.1.0.0/24"⟩, ⟨"b", "10.1.0.0/16"⟩]⟩

/-- A policy whose first entry is malformed. -/
def brokenPolicy : EgressIPAM := ⟨"p", [⟨"a", "not-a-cidr"⟩, ⟨"b", "10.1.0.0/24"⟩]⟩

/-- A host subnet with the given name and node address and no egress data. -/
def bareHostSubnet (name hostIP : String) : HostSubnet :=
  { (default : HostSubnet) with meta := { (default : ObjectMeta) with Name := name },
                                HostIP := hostIP }

/-- A client that plays a script: the `k`-th update returns the `k`-th entry of
the script (nil once the script is used up); the server state is what is left
of the script. Net namespaces are read from a fixed list. -/
def scriptClient (netNamespaces : List NetNamespace) : Client (List (Option String)) String where
  ListHostSubnets _ := .ok []
  UpdateHostSubnet script _ := (script.tail, script.head?.join)
  GetNetNamespace _ name :=
    match netNamespaces.find? (fun n => n.meta.Name == name) with
    | some n => .ok n
    | none => .error "not found"
  UpdateNetNamespace script _ := (script.tail, script.head?.join)
  UpdateNamespace script _ := (script.tail, script.head?.join)

/-- A client that records what it is sent: the server state is the list of the
records received so far, in order; an update of a record whose name is in
`refused` is answered with an error, every other update with nil. -/
def recordingClient (refused : List String) : Client (List HostSubnet) String where
  ListHostSubnets received := .ok received
  UpdateHostSubnet received hostsubnet :=
    (received ++ [hostsubnet],
      if hostsubnet.GetName ∈ refused then some "refused" else none)
  GetNetNamespace _ _ := .error "not found"
  UpdateNetNamespace received _ := (received, none)
  UpdateNamespace received _ := (received, none)

/-- Node A of the example scenario, converged, its egress IPs stored in another
order than the plan lists them. -/
def hostSubnetA : HostSubnet :=
  { bareHostSubnet "node-a" "10.1.0.5" with
    EgressIPs := some ["10.1.0.2", "10.1.0.1"], EgressCIDRs := some ["10.1.0.0/24"] }

/-- Node B of the example scenario, without egress data yet. -/
def hostSubnetB : HostSubnet := bareHostSubnet "node-b" "10.1.0.9"

/-- Node C of the example scenario, out of scope, both lists empty. -/
def hostSubnetC : HostSubnet :=
  { bareHostSubnet "node-c" "192.168.1.2" with EgressIPs := some [], EgressCIDRs := some [] }

/-- The context of the example scenario. -/
def exampleContext : ReconcileContext where
  AllHostSubnets := [("node-a", hostSubnetA), ("node-b", hostSubnetB), ("node-c", hostSubnetC)]
  SelectedHostSubnets := [("node-a", hostSubnetA), ("node-b", hostSubnetB)]
  SelectedNodesByCIDR := [("10.1.0.0/24", ["node-a", "node-b"])]
  FinallyAssignedIPsByNode := [("node-a", ["10.1.0.1", "10.1.0.2"]), ("node-b", ["10.1.0.3"])]

/-- A context whose only selected record holds no egress data. -/
def emptyRecordContext : ReconcileContext where
  AllHostSubnets := [("node-c", hostSubnetC)]
  SelectedHostSubnets := [("node-c", hostSubnetC)]
  SelectedNodesByCIDR := []
  FinallyAssignedIPsByNode := []

/-- A context before the first pass: nodes A and B are planned under one CIDR
and neither record holds egress data. -/
def freshContext : ReconcileContext where
  AllHostSubnets :=
    [("node-a", bareHostSubnet "node-a" "10.1.0.5"), ("node-b", hostSubnetB),
     ("node-c", hostSubnetC)]
  SelectedHostSubnets := [("node-a", bareHostSubnet "node-a" "10.1.0.5"), ("node-b", hostSubnetB)]
  SelectedNodesByCIDR := [("10.1.0.0/24", ["node-a", "node-b"])]
  FinallyAssignedIPsByNode := [("node-a", ["10.1.0.1"]), ("node-b", ["10.1.0.2"])]

/-- A net namespace whose egress-IP list is empty. -/
def idleNetNamespace : NetNamespace :=
  { (default : NetNamespace) with
    meta := { (default : ObjectMeta) with Name := "team-a" }, EgressIPs := some [] }

/-- A namespace without any annotations. -/
def plainNamespace : Namespace := ⟨{ (default : ObjectMeta) with Name := "team-a" }⟩

/-- The record store before the first pass of the example. -/
def exampleStore : List HostSubnet :=
  [bareHostSubnet "node-a" "10.1.0.5", hostSubnetB, hostSubnetC]

/-! ## Lemmas -/

section MatcherLemmas

variable {N A : Type}

theorem loop_eq_firstMatch_takeWhile (lib : NetLib N A) (hostIP : String)
    (entries : List CIDRAssignment) :
    matchesHostSubnetLoop lib hostIP entries
      = firstMatch lib hostIP (entries.takeWhile (wellFormed lib)) := by
  induction entries with
  | nil => rfl
  | cons e rest ih =>
    cases hp : lib.ParseCIDR e.CIDR with
    | none =>
      simp [matchesHostSubnetLoop, hp, firstMatch, wellFormed, List.takeWhile]
    | some cidr =>
      cases hc : lib.Contains cidr (lib.ParseIP hostIP) with
      | true =>
        simp [matchesHostSubnetLoop, hp, hc, firstMatch, wellFormed, List.takeWhile, inRange]
      | false =>
        have h1 : matchesHostSubnetLoop lib hostIP (e :: rest)
            = matchesHostSubnetLoop lib hostIP rest := by
          simp [matchesHostSubnetLoop, hp, hc]
        rw [h1, ih]
        simp [firstMatch, wellFormed, List.takeWhile, inRange, hp, hc]

theorem loop_hit (lib : NetLib N A) (hostIP : String) (entries : List CIDRAssignment)
    (hwf : ∀ e ∈ entries, wellFormed lib e = true)
    (hex : ∃ e ∈ entries, inRange lib hostIP e = true) :
    ∃ pre e post, entries = pre ++ e :: post ∧ (∀ x ∈ pre, inRange lib hostIP x = false)
      ∧ inRange lib hostIP e = true
      ∧ matchesHostSubnetLoop lib hostIP entries = (true, e.CIDR) := by
  induction entries with
  | nil => simp at hex
  | cons e rest ih =>
    have hwe : wellFormed lib e = true := hwf e (List.mem_cons_self _ _)
    cases hp : lib.ParseCIDR e.CIDR with
    | none => simp [wellFormed, hp] at hwe
    | some cidr =>
      cases hc : lib.Contains cidr (lib.ParseIP hostIP) with
      | true =>
        refine ⟨[], e, rest, rfl, by simp, by simp [inRange, hp, hc], ?_⟩
        simp [matchesHostSubnetLoop, hp, hc]
      | false =>
        have hne : inRange lib hostIP e = false := by simp [inRange, hp, hc]
        have hex2 : ∃ x ∈ rest, inRange lib hostIP x = true := by
          obtain ⟨x, hx, hin⟩ := hex
          rcases List.mem_cons.mp hx with rfl | hx
          · rw [hne] at hin; exact absurd hin (by simp)
          · exact ⟨x, hx, hin⟩
        obtain ⟨pre, x, post, heq, hpre, hin, hres⟩ :=
          ih (fun y hy => hwf y (List.mem_cons_of_mem _ hy)) hex2
        refine ⟨e :: pre, x, post, by rw [heq]; rfl, ?_, hin, ?_⟩
        · intro y hy
          rcases List.mem_cons.mp hy with rfl | hy
          · exact hne
          · exact hpre y hy
        · simpa [matchesHostSubnetLoop, hp, hc] using hres

theorem loop_miss (lib : NetLib N A) (hostIP : String) (entries : List CIDRAssignment)
    (hno : ∀ e ∈ entries, inRange lib hostIP e = false) :
    matchesHostSubnetLoop lib hostIP entries = (false, "") := by
  induction entries with
  | nil => rfl
  | cons e rest ih =>
    cases hp : lib.ParseCIDR e.CIDR with
    | none => simp [matchesHostSubnetLoop, hp]
    | some cidr =>
      have hne := hno e (List.mem_cons_self _ _)
      simp only [inRange, hp] at hne
      have := ih (fun y hy => hno y (List.mem_cons_of_mem _ hy))
      simpa [matchesHostSubnetLoop, hp, hne] using this

end MatcherLemmas

section LibraryLemmas

theorem foldl_goAppend {α : Type} (xs : List α) (s : Slice α) :
    xs.foldl goAppend s = if xs.isEmpty then s else some (s.elems ++ xs) := by
  induction xs generalizing s with
  | nil => simp
  | cons x rest ih =>
    rw [List.foldl_cons, ih]
    cases rest with
    | nil => simp [goAppend]
    | cons y ys => simp [goAppend, Slice.elems]

theorem appendEach_eq {α : Type} (xs : List α) :
    appendEach xs = if xs.isEmpty then none else some xs := by
  unfold appendEach
  rw [foldl_goAppend]
  simp [Slice.elems]

theorem appendEach_elems {α : Type} (xs : List α) : (appendEach xs).elems = xs := by
  rw [appendEach_eq]
  cases xs with
  | nil => simp [Slice.elems]
  | cons y ys => simp [Slice.elems]

theorem strsetIsEqual_new (a b : List String) :
    strsetIsEqual (strsetNew a) (strsetNew b) = true ↔ a.toFinset = b.toFinset := by
  unfold strsetIsEqual strsetNew
  rw [Bool.and_eq_true, decide_eq_true_iff, List.all_eq_true]
  constructor
  · rintro ⟨hlen, hall⟩
    symm
    apply Finset.eq_of_subset_of_card_le
    · intro x hx
      have hx1 : x ∈ b.dedup := List.mem_dedup.mpr (List.mem_toFinset.mp hx)
      have := hall x hx1
      rw [decide_eq_true_iff] at this
      exact List.mem_toFinset.mpr (List.mem_dedup.mp this)
    · rw [List.card_toFinset, List.card_toFinset, hlen]
  · intro h
    refine ⟨?_, ?_⟩
    · rw [← List.card_toFinset, ← List.card_toFinset, h]
    · intro x hx
      rw [decide_eq_true_iff]
      have hx1 : x ∈ b.toFinset := List.mem_toFinset.mpr (List.mem_dedup.mp hx)
      rw [← h] at hx1
      exact List.mem_dedup.mpr (List.mem_toFinset.mp hx1)

theorem foldl_multierrorAppend {ε : Type} (received : List (Option ε)) (acc : MultiError ε) :
    (received.foldl multierrorAppend acc).Errors = acc.Errors ++ received.filterMap id := by
  induction received generalizing acc with
  | nil => simp
  | cons r rest ih =>
    rw [List.foldl_cons, ih]
    cases r with
    | none => simp [multierrorAppend]
    | some e => simp [multierrorAppend]

theorem aggregate_eq {ε : Type} (received : List (Option ε)) :
    aggregate received
      = if (received.filterMap id).isEmpty then none else some ⟨received.filterMap id⟩ := by
  unfold aggregate MultiError.ErrorOrNil
  have h := foldl_multierrorAppend received ⟨[]⟩
  simp only [List.nil_append] at h
  cases hm : received.foldl multierrorAppend ⟨[]⟩ with
  | mk errs =>
    rw [hm] at h
    simp only at h
    subst h
    cases received.filterMap id with
    | nil => simp
    | cons e es => simp

theorem range_map_getD {α : Type} (l : List α) (d : Nat → α) :
    (List.range l.length).map (fun j => l.getD j (d j)) = l := by
  apply List.ext_getElem
  · simp
  · intro i h1 h2
    simp at h1
    simp [List.getD, h1]

theorem receiveAll_perm {ε : Type} (n : Nat) (sched : List Nat) (sent : List (Option ε))
    (hsched : sched.Perm (List.range n)) (hlen : sent.length = n) :
    (receiveAll n sched sent).Perm sent := by
  have hsl : sched.length = n := by
    rw [hsched.length_eq, List.length_range]
  have h1 : (List.range n).map (fun j => sched.getD j j) = sched := by
    have := range_map_getD sched (fun j => j)
    rwa [hsl] at this
  have h2 : receiveAll n sched sent = sched.map (fun i => sent.getD i none) := by
    unfold receiveAll
    conv_rhs => rw [← h1]
    rw [List.map_map]
    rfl
  have h3 : (List.range n).map (fun i => sent.getD i none) = sent := by
    have := range_map_getD sent (fun _ => none)
    rwa [hlen] at this
  rw [h2]
  have := hsched.map (fun i => sent.getD i none)
  rwa [h3] at this

theorem receiveAll_length {ε : Type} (n : Nat) (sched : List Nat) (sent : List (Option ε)) :
    (receiveAll n sched sent).length = n := by
  simp [receiveAll]

end LibraryLemmas

section FanOutLemmas

variable {σ ε : Type}

theorem fanOut_sent_length (unit : σ → String → HostSubnet → UnitRun σ ε) (s : σ)
    (m : GoMap HostSubnet) : (fanOut unit s m).sent.length = m.length := by
  induction m generalizing s with
  | nil => rfl
  | cons e rest ih =>
    obtain ⟨k, v⟩ := e
    simp [fanOut, ih]

theorem fanOut_log (unit : σ → String → HostSubnet → UnitRun σ ε)
    (g : String → HostSubnet → Option HostSubnet)
    (hunit : ∀ s k v, (unit s k v).log.map Prod.fst = (g k v).toList) (s : σ)
    (m : GoMap HostSubnet) :
    (fanOut unit s m).log.map Prod.fst = m.filterMap (fun e => g e.1 e.2) := by
  induction m generalizing s with
  | nil => rfl
  | cons e rest ih =>
    obtain ⟨k, v⟩ := e
    simp only [fanOut, List.map_append, hunit, ih, List.filterMap_cons]
    cases g k v <;> simp

theorem fanOut_sent (unit : σ → String → HostSubnet → UnitRun σ ε)
    (hunit : ∀ s k v, (unit s k v).sent.toList = (unit s k v).log.filterMap Prod.snd) (s : σ)
    (m : GoMap HostSubnet) :
    (fanOut unit s m).sent.filterMap id = (fanOut unit s m).log.filterMap Prod.snd := by
  induction m generalizing s with
  | nil => rfl
  | cons e rest ih =>
    obtain ⟨k, v⟩ := e
    simp only [fanOut, List.filterMap_append, ← hunit, ← ih, List.filterMap_cons]
    cases (unit s k v).sent <;> simp

/-- The fan-in of a sweep: under a schedule that delivers every unit's result
once, the returned error is nil exactly when no logged update failed, and
otherwise its members are the errors of the failed updates. -/
theorem fanIn_spec (unit : σ → String → HostSubnet → UnitRun σ ε)
    (hunit : ∀ s k v, (unit s k v).sent.toList = (unit s k v).log.filterMap Prod.snd) (s : σ)
    (m : GoMap HostSubnet) (sched : List Nat) (hsched : sched.Perm (List.range m.length)) :
    (aggregate (receiveAll m.length sched (fanOut unit s m).sent) = none ↔
        ∀ x ∈ (fanOut unit s m).log, x.2 = none)
    ∧ ∀ agg, aggregate (receiveAll m.length sched (fanOut unit s m).sent) = some agg →
        agg.Errors.Perm ((fanOut unit s m).log.filterMap Prod.snd) := by
  have hperm := receiveAll_perm m.length sched (fanOut unit s m).sent hsched
    (fanOut_sent_length unit s m)
  have hfm := hperm.filterMap id
  rw [fanOut_sent unit hunit] at hfm
  rw [aggregate_eq]
  generalize (receiveAll m.length sched (fanOut unit s m).sent).filterMap id = got at hfm
  generalize (fanOut unit s m).log = log at hfm
  constructor
  · constructor
    · intro h x hx
      cases got with
      | nil =>
        have hlog := hfm.symm.eq_nil
        cases hx2 : x.2 with
        | none => rfl
        | some e =>
          have : e ∈ log.filterMap Prod.snd := List.mem_filterMap.mpr ⟨x, hx, hx2⟩
          rw [hlog] at this
          simp at this
      | cons g gs => simp at h
    · intro h
      have hlog : log.filterMap Prod.snd = [] := by
        apply List.eq_nil_iff_forall_not_mem.mpr
        intro e he
        obtain ⟨x, hx, hx2⟩ := List.mem_filterMap.mp he
        rw [h x hx] at hx2
        simp at hx2
      rw [hlog] at hfm
      simp [hfm.eq_nil]
  · intro agg hagg
    cases got with
    | nil => simp at hagg
    | cons g gs =>
      simp only [List.isEmpty_cons, Bool.false_eq_true, if_false, Option.some.injEq] at hagg
      rw [← hagg]
      exact hfm

end FanOutLemmas

section SweepLemmas

variable {σ ε : Type}

theorem ipUnit_eq {σ ε : Type} (client : Client σ ε) (rc : ReconcileContext) (s : σ)
    (k : String) (v : HostSubnet) :
    reconcileHSAssignedIPsUnit client rc s k v
      = match plannedIPUpdate rc k v with
        | none => ⟨s, [], none⟩
        | some u =>
          ⟨(client.UpdateHostSubnet s u).1, [(u, (client.UpdateHostSubnet s u).2)],
            (client.UpdateHostSubnet s u).2⟩ := by
  have hel : (GetHostHostSubnetEgressIPsAsStrings v.EgressIPs).elems = v.EgressIPs.elems :=
    appendEach_elems _
  have hnew : GetHostHostSubnetEgressIPs (rc.FinallyAssignedIPsByNode.get k)
      = if (rc.FinallyAssignedIPsByNode.get k).isEmpty then none
        else some (rc.FinallyAssignedIPsByNode.get k) := appendEach_eq _
  unfold reconcileHSAssignedIPsUnit plannedIPUpdate
  simp only [HostSubnet.DeepCopy, hel, hnew]
  by_cases h : (rc.FinallyAssignedIPsByNode.get k).toFinset = v.EgressIPs.elems.toFinset
  · have := (strsetIsEqual_new _ _).mpr h
    simp [this, h]
  · have hb : strsetIsEqual (strsetNew (rc.FinallyAssignedIPsByNode.get k))
        (strsetNew v.EgressIPs.elems) = false := by
      cases hc : strsetIsEqual (strsetNew (rc.FinallyAssignedIPsByNode.get k))
        (strsetNew v.EgressIPs.elems) with
      | false => rfl
      | true => exact absurd ((strsetIsEqual_new _ _).mp hc) h
    simp only [hb, h, Bool.not_false, if_true, if_false]
    split <;> simp_all

theorem plannedIPUpdate_name (rc : ReconcileContext) (k : String) (v u : HostSubnet)
    (h : plannedIPUpdate rc k v = some u) :
    u.GetName = v.GetName ∧ u.EgressIPs.elems = rc.FinallyAssignedIPsByNode.get k := by
  unfold plannedIPUpdate at h
  split at h
  · simp at h
  · simp only [Option.some.injEq] at h
    subst h
    refine ⟨rfl, ?_⟩
    cases hp : rc.FinallyAssignedIPsByNode.get k <;> simp [Slice.elems]

/-- A fan-out whose units send their planned record to the client, if they
have one, is the client called on the planned records in the order of the
units. -/
theorem fanOut_issueAll (client : Client σ ε) (unit : σ → String → HostSubnet → UnitRun σ ε)
    (g : String → HostSubnet → Option HostSubnet)
    (hunit : ∀ s k v, unit s k v
      = match g k v with
        | none => ⟨s, [], none⟩
        | some u =>
          ⟨(client.UpdateHostSubnet s u).1, [(u, (client.UpdateHostSubnet s u).2)],
            (client.UpdateHostSubnet s u).2⟩)
    (s : σ) (m : GoMap HostSubnet) :
    (fanOut unit s m).state = (issueAll client s (m.filterMap (fun e => g e.1 e.2))).1
    ∧ (fanOut unit s m).log = (issueAll client s (m.filterMap (fun e => g e.1 e.2))).2 := by
  induction m generalizing s with
  | nil => exact ⟨rfl, rfl⟩
  | cons e rest ih =>
    obtain ⟨k, v⟩ := e
    simp only [fanOut, hunit s k v, List.filterMap_cons]
    cases hg : g k v with
    | none => exact ih s
    | some u =>
      obtain ⟨h1, h2⟩ := ih (client.UpdateHostSubnet s u).1
      simp only [issueAll]
      exact ⟨h1, by rw [h2]; rfl⟩

theorem ipUnit_log (client : Client σ ε) (rc : ReconcileContext) (s : σ) (k : String)
    (v : HostSubnet) :
    (reconcileHSAssignedIPsUnit client rc s k v).log.map Prod.fst
      = (plannedIPUpdate rc k v).toList := by
  rw [ipUnit_eq]
  cases plannedIPUpdate rc k v <;> rfl

theorem ipUnit_sent (client : Client σ ε) (rc : ReconcileContext) (s : σ) (k : String)
    (v : HostSubnet) :
    (reconcileHSAssignedIPsUnit client rc s k v).sent.toList
      = (reconcileHSAssignedIPsUnit client rc s k v).log.filterMap Prod.snd := by
  rw [ipUnit_eq]
  cases plannedIPUpdate rc k v with
  | none => rfl
  | some u => cases h : (client.UpdateHostSubnet s u).2 <;> simp [h]

theorem deepEqual_typed_false (elemType : String) (val : Slice String)
    (h : elemType ≠ "string") : reflectDeepEqual ⟨elemType, val⟩ emptyStringSlice = false := by
  simp [reflectDeepEqual, emptyStringSlice, h]

theorem removeUnit_log (client : Client σ ε) (s : σ) (k : String) (v : HostSubnet) :
    (removeHostsubnetAssignedIPsAndCIDRsUnit client s k v).log.map Prod.fst
      = (some (cleared v)).toList := by
  unfold removeHostsubnetAssignedIPsAndCIDRsUnit cleared
  simp only [HostSubnet.DeepCopy, deepEqual_typed_false _ _ (by decide :
    "ocpnetv1.HostSubnetEgressCIDR" ≠ "string"), Bool.not_false, Bool.true_or, if_true]
  split <;> simp

theorem removeUnit_sent (client : Client σ ε) (s : σ) (k : String) (v : HostSubnet) :
    (removeHostsubnetAssignedIPsAndCIDRsUnit client s k v).sent.toList
      = (removeHostsubnetAssignedIPsAndCIDRsUnit client s k v).log.filterMap Prod.snd := by
  unfold removeHostsubnetAssignedIPsAndCIDRsUnit
  simp only []
  split
  · split <;> simp
  · simp

end SweepLemmas

section AssignLemmas

variable {σ ε : Type}

theorem assign_guard (rc : ReconcileContext) (cidr node : String) :
    (!strsetIsEqual
        (strsetNew (GetHostSubnetCIDRsAsStrings (rc.AllHostSubnets.get node).EgressCIDRs).elems)
        (strsetNew [cidr])) = cidrDiffers rc (cidr, node) := by
  have hel : (GetHostSubnetCIDRsAsStrings (rc.AllHostSubnets.get node).EgressCIDRs).elems
      = (rc.AllHostSubnets.get node).EgressCIDRs.elems := appendEach_elems _
  rw [hel]
  unfold cidrDiffers
  by_cases h : (rc.AllHostSubnets.get node).EgressCIDRs.elems.toFinset = [cidr].toFinset
  · have := (strsetIsEqual_new _ _).mpr h
    simp only [List.toFinset_cons, List.toFinset_nil, insert_emptyc_eq] at h
    simp [this, h]
  · have hb : strsetIsEqual (strsetNew (rc.AllHostSubnets.get node).EgressCIDRs.elems)
        (strsetNew [cidr]) = false := by
      cases hc : strsetIsEqual (strsetNew (rc.AllHostSubnets.get node).EgressCIDRs.elems)
        (strsetNew [cidr]) with
      | false => rfl
      | true => exact absurd ((strsetIsEqual_new _ _).mp hc) h
    simp only [List.toFinset_cons, List.toFinset_nil, insert_emptyc_eq] at h
    simp [hb, h]

theorem assign_written (rc : ReconcileContext) (cidr node : String) :
    ({ rc.AllHostSubnets.get node with EgressCIDRs := GetHostSubnetCIDRs [cidr] } : HostSubnet)
      = cidrUpdate rc (cidr, node) := by
  unfold cidrUpdate GetHostSubnetCIDRs
  rw [appendEach_eq]
  rfl

theorem assignCIDRNodes_eq (client : Client σ ε) (rc : ReconcileContext) (cidr : String)
    (s : σ) (nodes : List String) :
    assignCIDRNodes client rc cidr s nodes
      = assignJobs client rc s (nodes.map (fun node => (cidr, node))) := by
  induction nodes generalizing s with
  | nil => rfl
  | cons node rest ih =>
    simp only [assignCIDRNodes, List.map_cons, assignJobs, assign_guard, assign_written]
    cases hd : cidrDiffers rc (cidr, node) with
    | false => simpa using ih s
    | true =>
      simp only [if_true]
      rcases hupd : client.UpdateHostSubnet s (cidrUpdate rc (cidr, node)) with ⟨s1, _ | err⟩
      · simp [ih]
      · simp

theorem assignJobs_append (client : Client σ ε) (rc : ReconcileContext) (s : σ)
    (xs ys : List (String × String)) :
    assignJobs client rc s (xs ++ ys)
      = match assignJobs client rc s xs with
        | ⟨s1, log, some err⟩ => ⟨s1, log, some err⟩
        | ⟨s1, log, none⟩ =>
          ⟨(assignJobs client rc s1 ys).state, log ++ (assignJobs client rc s1 ys).log,
            (assignJobs client rc s1 ys).sent⟩ := by
  induction xs generalizing s with
  | nil => simp [assignJobs]
  | cons job rest ih =>
    simp only [List.cons_append, assignJobs]
    cases hd : cidrDiffers rc job with
    | false => simpa using ih s
    | true =>
      simp only [if_true]
      rcases hupd : client.UpdateHostSubnet s (cidrUpdate rc job) with ⟨s1, _ | err⟩
      · have hih := ih s1
        rcases hrest : assignJobs client rc s1 rest with ⟨s2, log, _ | err⟩
        · rw [hrest] at hih
          simp [hih, hrest]
        · rw [hrest] at hih
          simp [hih, hrest]
      · simp

theorem assignCIDRsLoop_eq (client : Client σ ε) (rc : ReconcileContext) (s : σ)
    (plan : GoMap (List String)) :
    assignCIDRsLoop client rc s plan
      = assignJobs client rc s (plan.flatMap (fun e => e.2.map (fun node => (e.1, node)))) := by
  induction plan generalizing s with
  | nil => rfl
  | cons e rest ih =>
    obtain ⟨cidr, nodes⟩ := e
    simp only [assignCIDRsLoop, List.flatMap_cons, assignJobs_append, assignCIDRNodes_eq]
    rcases hn : assignJobs client rc s (nodes.map (fun node => (cidr, node)))
      with ⟨s1, log, _ | err⟩
    · simp [ih]
    · simp

theorem assignCIDRsToHostSubnets_eq (client : Client σ ε) (rc : ReconcileContext) (s : σ) :
    assignCIDRsToHostSubnets client rc s
      = ⟨(assignJobs client rc s (plannedJobs rc)).state,
          (assignJobs client rc s (plannedJobs rc)).log, [],
          (assignJobs client rc s (plannedJobs rc)).sent, rc⟩ := by
  unfold assignCIDRsToHostSubnets plannedJobs
  rw [assignCIDRsLoop_eq]

/-- The sequential sweep over pairs: the updates issued are a prefix of the
wanted ones, nothing but the last update can have failed, and the returned
error is that failure. -/
theorem assignJobs_spec (client : Client σ ε) (rc : ReconcileContext) (s : σ)
    (jobs : List (String × String)) :
    ((assignJobs client rc s jobs).log.map Prod.fst
        <+: (jobs.filter (cidrDiffers rc)).map (cidrUpdate rc))
    ∧ ((assignJobs client rc s jobs).sent = none →
        (assignJobs client rc s jobs).log.map Prod.fst
          = (jobs.filter (cidrDiffers rc)).map (cidrUpdate rc)
        ∧ ∀ x ∈ (assignJobs client rc s jobs).log, x.2 = none)
    ∧ (∀ err, (assignJobs client rc s jobs).sent = some err →
        ∃ done last, (assignJobs client rc s jobs).log = done ++ [(last, some err)]
          ∧ ∀ x ∈ done, x.2 = none) := by
  induction jobs generalizing s with
  | nil => simp [assignJobs]
  | cons job rest ih =>
    simp only [assignJobs]
    cases hd : cidrDiffers rc job with
    | false => simpa [List.filter_cons, hd] using ih s
    | true =>
      simp only [if_true, List.filter_cons, hd, List.map_cons]
      rcases hupd : client.UpdateHostSubnet s (cidrUpdate rc job) with ⟨s1, _ | err⟩
      · obtain ⟨h1, h2, h3⟩ := ih s1
        refine ⟨?_, ?_, ?_⟩
        · simpa [List.prefix_cons_inj] using h1
        · intro hs
          obtain ⟨ha, hb⟩ := h2 hs
          refine ⟨by simpa using ha, ?_⟩
          intro x hx
          rcases List.mem_cons.mp hx with rfl | hx
          · rfl
          · exact hb x hx
        · intro e he
          obtain ⟨done, last, hlog, hdone⟩ := h3 e he
          refine ⟨(cidrUpdate rc job, none) :: done, last, by simp [hlog], ?_⟩
          intro x hx
          rcases List.mem_cons.mp hx with rfl | hx
          · rfl
          · exact hdone x hx
      · refine ⟨?_, ?_, ?_⟩
        · simp [List.prefix_cons_inj]
        · intro hs; simp at hs
        · intro e he
          simp only [Option.some.injEq] at he
          subst he
          exact ⟨[], cidrUpdate rc job, by simp, by simp⟩

end AssignLemmas

section StoreLemmas

theorem lookup_mem {V : Type} (m : GoMap V) (k : String) (v : V)
    (h : m.lookup k = some v) : (k, v) ∈ m := by
  induction m with
  | nil => simp at h
  | cons e rest ih =>
    obtain ⟨k1, v1⟩ := e
    by_cases hk : k = k1
    · subst hk
      simp only [List.lookup_cons, beq_self_eq_true, Option.some.injEq] at h
      subst h
      exact List.mem_cons_self _ _
    · have hb : (k == k1) = false := by simpa using hk
      simp only [List.lookup_cons, hb] at h
      exact List.mem_cons_of_mem _ (ih h)

theorem get_of_has {V : Type} [Inhabited V] (m : GoMap V) (k : String)
    (h : m.has k = true) : (k, m.get k) ∈ m := by
  unfold GoMap.has at h
  unfold GoMap.get
  cases hl : m.lookup k with
  | none => simp [hl] at h
  | some v => exact lookup_mem m k v hl

theorem storeReplace_names (st : List HostSubnet) (u : HostSubnet) :
    (storeReplace st u).map HostSubnet.GetName = st.map HostSubnet.GetName := by
  unfold storeReplace
  rw [List.map_map]
  apply List.map_congr_left
  intro r _
  simp only [Function.comp]
  split
  · next h => exact h.symm
  · rfl

theorem storeReplace_absent (st : List HostSubnet) (u : HostSubnet)
    (h : st.any (fun r => decide (r.GetName = u.GetName)) = false) : storeReplace st u = st := by
  unfold storeReplace
  conv_rhs => rw [← List.map_id st]
  apply List.map_congr_left
  intro r hr
  have := (List.any_eq_false.mp h) r hr
  simp only [decide_eq_true_eq] at this
  simp [this]

theorem storeClient_update_state (st : List HostSubnet) (u : HostSubnet) :
    (storeClient.UpdateHostSubnet st u).1 = storeReplace st u := by
  unfold storeClient
  simp only []
  cases h : st.any (fun r => decide (r.GetName = u.GetName)) with
  | true => simp
  | false => simp [storeReplace_absent st u h]

theorem storeClient_update_ok (st : List HostSubnet) (u : HostSubnet)
    (h : u.GetName ∈ st.map HostSubnet.GetName) :
    (storeClient.UpdateHostSubnet st u).2 = none := by
  unfold storeClient
  simp only []
  obtain ⟨r, hr, hname⟩ := List.mem_map.mp h
  have : st.any (fun r => decide (r.GetName = u.GetName)) = true :=
    List.any_eq_true.mpr ⟨r, hr, by simpa using hname⟩
  simp [this]

theorem mem_foldl_storeReplace (us : List HostSubnet) (st : List HostSubnet) (r : HostSubnet)
    (h : r ∈ us.foldl storeReplace st) :
    (r ∈ st ∧ ∀ u ∈ us, u.GetName ≠ r.GetName) ∨ r ∈ us := by
  induction us generalizing st with
  | nil => exact Or.inl ⟨h, by simp⟩
  | cons u rest ih =>
    rw [List.foldl_cons] at h
    rcases ih (storeReplace st u) h with ⟨hin, hrest⟩ | hin
    · unfold storeReplace at hin
      obtain ⟨r0, hr0, heq⟩ := List.mem_map.mp hin
      by_cases hn : r0.GetName = u.GetName
      · simp only [hn, if_true] at heq
        exact Or.inr (heq ▸ List.mem_cons_self _ _)
      · simp only [hn, if_false] at heq
        subst heq
        refine Or.inl ⟨hr0, ?_⟩
        intro u1 hu1
        rcases List.mem_cons.mp hu1 with rfl | hu1
        · exact fun hc => hn hc.symm
        · exact hrest u1 hu1
    · exact Or.inr (List.mem_cons_of_mem _ hin)

theorem eq_of_same_name (store : List HostSubnet)
    (hnames : (store.map HostSubnet.GetName).Nodup) (a b : HostSubnet) (ha : a ∈ store)
    (hb : b ∈ store) (hname : a.GetName = b.GetName) : a = b :=
  List.inj_on_of_nodup_map hnames ha hb hname

/-- The first run of the IP sweep against the record store: every update
succeeds and the store ends as the initial store with the issued updates
replaced in, one after the other. -/
theorem ipSweep_on_store (rc : ReconcileContext) (store : List HostSubnet)
    (m : GoMap HostSubnet) (hm : ReadFrom store m) (st : List HostSubnet)
    (hst : st.map HostSubnet.GetName = store.map HostSubnet.GetName) :
    (fanOut (reconcileHSAssignedIPsUnit storeClient rc) st m).state
        = ((fanOut (reconcileHSAssignedIPsUnit storeClient rc) st m).log.map Prod.fst).foldl
            storeReplace st
    ∧ ∀ x ∈ (fanOut (reconcileHSAssignedIPsUnit storeClient rc) st m).log, x.2 = none := by
  induction m generalizing st with
  | nil => simp [fanOut]
  | cons e rest ih =>
    obtain ⟨k, v⟩ := e
    have hrest : ReadFrom store rest := fun e he => hm e (List.mem_cons_of_mem _ he)
    have hv := hm (k, v) (List.mem_cons_self _ _)
    simp only [fanOut, ipUnit_eq]
    cases hp : plannedIPUpdate rc k v with
    | none =>
      simpa using ih hrest st hst
    | some u =>
      have hname := (plannedIPUpdate_name rc k v u hp).1
      have hin : u.GetName ∈ st.map HostSubnet.GetName := by
        rw [hst, hname]
        exact List.mem_map.mpr ⟨v, hv.1, rfl⟩
      have hok := storeClient_update_ok st u hin
      have hstate := storeClient_update_state st u
      have hst1 : (storeReplace st u).map HostSubnet.GetName
          = store.map HostSubnet.GetName := by
        rw [storeReplace_names, hst]
      obtain ⟨h1, h2⟩ := ih hrest (storeReplace st u) hst1
      simp only [hstate, hok, List.singleton_append, List.map_cons, List.foldl_cons]
      refine ⟨h1, ?_⟩
      intro x hx
      rcases List.mem_cons.mp hx with rfl | hx
      · rfl
      · exact h2 x hx

/-- Second run of the IP sweep: no update is issued. -/
theorem ipSweep_second_run (store : List HostSubnet) (rc rc2 : ReconcileContext)
    (sched sched2 : List Nat)
    (hnames : (store.map HostSubnet.GetName).Nodup)
    (hsel : ReadFrom store rc.SelectedHostSubnets)
    (hips : rc2.FinallyAssignedIPsByNode = rc.FinallyAssignedIPsByNode)
    (hread : ReadFrom (reconcileHSAssignedIPs storeClient rc store sched).state
      rc2.SelectedHostSubnets)
    (hsame : ∀ e ∈ rc2.SelectedHostSubnets, rc.SelectedHostSubnets.has e.1 = true) :
    (reconcileHSAssignedIPs storeClient rc2
      (reconcileHSAssignedIPs storeClient rc store sched).state sched2).log = [] := by
  have hlog1 : (reconcileHSAssignedIPs storeClient rc store sched).log.map Prod.fst
      = rc.SelectedHostSubnets.filterMap (fun e => plannedIPUpdate rc e.1 e.2) :=
    fanOut_log _ (plannedIPUpdate rc) (ipUnit_log storeClient rc) store rc.SelectedHostSubnets
  have hstate : (reconcileHSAssignedIPs storeClient rc store sched).state
      = ((reconcileHSAssignedIPs storeClient rc store sched).log.map Prod.fst).foldl
          storeReplace store :=
    (ipSweep_on_store rc store rc.SelectedHostSubnets hsel store rfl).1
  rw [hlog1] at hstate
  have hlog2 : (reconcileHSAssignedIPs storeClient rc2
      (reconcileHSAssignedIPs storeClient rc store sched).state sched2).log.map Prod.fst
      = rc2.SelectedHostSubnets.filterMap (fun e => plannedIPUpdate rc2 e.1 e.2) :=
    fanOut_log _ (plannedIPUpdate rc2) (ipUnit_log storeClient rc2) _ rc2.SelectedHostSubnets
  have hnone : ∀ e ∈ rc2.SelectedHostSubnets, plannedIPUpdate rc2 e.1 e.2 = none := by
    intro e he
    obtain ⟨hmem, hkey⟩ := hread e he
    rw [hstate] at hmem
    have hgoal : (rc.FinallyAssignedIPsByNode.get e.1).toFinset
        = e.2.EgressIPs.elems.toFinset := by
      rcases mem_foldl_storeReplace _ _ _ hmem with ⟨hin, hno⟩ | hin
      · have hhas := hsame e he
        have h0 := get_of_has rc.SelectedHostSubnets e.1 hhas
        obtain ⟨h0mem, h0name⟩ := hsel _ h0
        simp only at h0mem h0name
        have heq : rc.SelectedHostSubnets.get e.1 = e.2 :=
          eq_of_same_name store hnames _ _ h0mem hin (by rw [h0name, hkey])
        rw [heq] at h0
        cases hp : plannedIPUpdate rc e.1 e.2 with
        | none =>
          unfold plannedIPUpdate at hp
          split at hp
          · assumption
          · simp at hp
        | some u =>
          have hu : u ∈ rc.SelectedHostSubnets.filterMap (fun e => plannedIPUpdate rc e.1 e.2) :=
            List.mem_filterMap.mpr ⟨(e.1, e.2), h0, hp⟩
          exact absurd (plannedIPUpdate_name rc e.1 e.2 u hp).1 (hno u hu)
      · obtain ⟨e0, he0, hp0⟩ := List.mem_filterMap.mp hin
        obtain ⟨hn0, hips0⟩ := plannedIPUpdate_name rc e0.1 e0.2 e.2 hp0
        have hk0 := (hsel e0 he0).2
        have hkeq : e0.1 = e.1 := by rw [← hk0, ← hn0, hkey]
        rw [hips0, hkeq]
    unfold plannedIPUpdate
    rw [hips]
    simp [hgoal]
  have hnil : rc2.SelectedHostSubnets.filterMap (fun e => plannedIPUpdate rc2 e.1 e.2) = [] := by
    apply List.eq_nil_iff_forall_not_mem.mpr
    intro u hu
    obtain ⟨e, he, hp⟩ := List.mem_filterMap.mp hu
    rw [hnone e he] at hp
    simp at hp
  rw [hnil] at hlog2
  exact List.map_eq_nil_iff.mp hlog2

/-- The first run of the CIDR sweep against the record store, all planned nodes
being stored: no update fails, so the sweep runs to its end, and the store ends
as the initial store with the issued updates replaced in. -/
theorem assignJobs_on_store (rc : ReconcileContext) (store : List HostSubnet)
    (jobs : List (String × String))
    (hp : ∀ job ∈ jobs, (rc.AllHostSubnets.get job.2).GetName ∈ store.map HostSubnet.GetName)
    (st : List HostSubnet) (hst : st.map HostSubnet.GetName = store.map HostSubnet.GetName) :
    (assignJobs storeClient rc st jobs).sent = none
    ∧ (assignJobs storeClient rc st jobs).state
        = ((assignJobs storeClient rc st jobs).log.map Prod.fst).foldl storeReplace st := by
  induction jobs generalizing st with
  | nil => simp [assignJobs]
  | cons job rest ih =>
    have hrest : ∀ j ∈ rest,
        (rc.AllHostSubnets.get j.2).GetName ∈ store.map HostSubnet.GetName :=
      fun j hj => hp j (List.mem_cons_of_mem _ hj)
    cases hd : cidrDiffers rc job with
    | false =>
      simp only [assignJobs, hd]
      simpa using ih hrest st hst
    | true =>
      have hin : (cidrUpdate rc job).GetName ∈ st.map HostSubnet.GetName := by
        rw [hst]
        exact hp job (List.mem_cons_self _ _)
      have hupd : storeClient.UpdateHostSubnet st (cidrUpdate rc job)
          = (storeReplace st (cidrUpdate rc job), none) :=
        Prod.ext (storeClient_update_state st _) (storeClient_update_ok st _ hin)
      have hst1 : (storeReplace st (cidrUpdate rc job)).map HostSubnet.GetName
          = store.map HostSubnet.GetName := by
        rw [storeReplace_names, hst]
      obtain ⟨h1, h2⟩ := ih hrest _ hst1
      simp only [assignJobs, hd, if_true, hupd, List.map_cons, List.foldl_cons]
      exact ⟨h1, h2⟩

/-- Second run of the CIDR sweep: the first run had no failure, and the second
issues no update. -/
theorem cidrSweep_second_run (store : List HostSubnet) (rc rc2 : ReconcileContext)
    (hnames : (store.map HostSubnet.GetName).Nodup)
    (hall : ReadFrom store rc.AllHostSubnets)
    (hpresent : ∀ job ∈ plannedJobs rc, rc.AllHostSubnets.has job.2 = true)
    (hone : ∀ j1 ∈ plannedJobs rc, ∀ j2 ∈ plannedJobs rc, j1.2 = j2.2 → j1.1 = j2.1)
    (hplan : rc2.SelectedNodesByCIDR = rc.SelectedNodesByCIDR)
    (hread : ReadFrom (assignCIDRsToHostSubnets storeClient rc store).state rc2.AllHostSubnets)
    (hpresent2 : ∀ job ∈ plannedJobs rc, rc2.AllHostSubnets.has job.2 = true) :
    (assignCIDRsToHostSubnets storeClient rc store).err = none
    ∧ (assignCIDRsToHostSubnets storeClient rc2
        (assignCIDRsToHostSubnets storeClient rc store).state).log = [] := by
  have hrec : ∀ job ∈ plannedJobs rc,
      rc.AllHostSubnets.get job.2 ∈ store ∧ (rc.AllHostSubnets.get job.2).GetName = job.2 :=
    fun job hj => hall _ (get_of_has rc.AllHostSubnets job.2 (hpresent job hj))
  have hp : ∀ job ∈ plannedJobs rc,
      (rc.AllHostSubnets.get job.2).GetName ∈ store.map HostSubnet.GetName :=
    fun job hj => List.mem_map.mpr ⟨_, (hrec job hj).1, rfl⟩
  obtain ⟨hsent, hstate⟩ := assignJobs_on_store rc store (plannedJobs rc) hp store rfl
  have hlog := ((assignJobs_spec storeClient rc store (plannedJobs rc)).2.1 hsent).1
  rw [hlog] at hstate
  have hjobs2 : plannedJobs rc2 = plannedJobs rc := by
    unfold plannedJobs
    rw [hplan]
  rw [assignCIDRsToHostSubnets_eq storeClient rc store] at hread ⊢
  simp only at hread ⊢
  refine ⟨hsent, ?_⟩
  rw [hstate] at hread ⊢
  have hquiet : ∀ job ∈ plannedJobs rc, cidrDiffers rc2 job = false := by
    intro job hj
    have h2 := get_of_has rc2.AllHostSubnets job.2 (hpresent2 job hj)
    obtain ⟨hmem, hkey⟩ := hread _ h2
    simp only at hmem hkey
    have hgoal : (rc2.AllHostSubnets.get job.2).EgressCIDRs.elems.toFinset = {job.1} := by
      rcases mem_foldl_storeReplace _ _ _ hmem with ⟨hin, hno⟩ | hin
      · obtain ⟨h0mem, h0name⟩ := hrec job hj
        have heq : rc.AllHostSubnets.get job.2 = rc2.AllHostSubnets.get job.2 :=
          eq_of_same_name store hnames _ _ h0mem hin (by rw [h0name, hkey])
        cases hd : cidrDiffers rc job with
        | false =>
          unfold cidrDiffers at hd
          simp only [ne_eq, decide_not, Bool.not_eq_false', decide_eq_true_eq] at hd
          rw [← heq]
          exact hd
        | true =>
          have hu : cidrUpdate rc job ∈ cidrWanted rc :=
            List.mem_map.mpr ⟨job, List.mem_filter.mpr ⟨hj, hd⟩, rfl⟩
          have hne := hno _ hu
          exact absurd (by rw [← heq]; rfl) hne
      · obtain ⟨j0, hj0, hu0⟩ := List.mem_map.mp hin
        have hj0mem : j0 ∈ plannedJobs rc := (List.mem_filter.mp hj0).1
        have hn0 : (cidrUpdate rc j0).GetName = j0.2 := (hrec j0 hj0mem).2
        have hsame : j0.2 = job.2 := by rw [← hn0, hu0, hkey]
        have hc := hone j0 hj0mem job hj hsame
        rw [← hu0]
        simp [cidrUpdate, Slice.elems, hc]
    unfold cidrDiffers
    simp [hgoal]
  have hwant : cidrWanted rc2 = [] := by
    unfold cidrWanted
    rw [hjobs2]
    have : (plannedJobs rc).filter (cidrDiffers rc2) = [] := by
      apply List.eq_nil_iff_forall_not_mem.mpr
      intro job hjf
      obtain ⟨hj, hd⟩ := List.mem_filter.mp hjf
      rw [hquiet job hj] at hd
      simp at hd
    rw [this]
    rfl
  rw [assignCIDRsToHostSubnets_eq]
  simp only
  have hpre := (assignJobs_spec storeClient rc2
    (List.foldl storeReplace store (cidrWanted rc)) (plannedJobs rc2)).1
  have hw : (List.filter (cidrDiffers rc2) (plannedJobs rc2)).map (cidrUpdate rc2) = [] := hwant
  rw [hw] at hpre
  exact List.map_eq_nil_iff.mp (List.prefix_nil.mp hpre)

end StoreLemmas

/-! ## The claims -/

/-- C1. First match wins: when every CIDR entry of the policy is well-formed,
`matchesHostSubnet` returns `(true, c)` with `c` the CIDR text of the first entry
(in declared order) whose range contains the node address if there is such an
entry, and `(false, "")` if no entry contains the address. -/
theorem matchesHostSubnet_first_match_wins {N A : Type} (lib : NetLib N A)
    (egressIPAM : EgressIPAM) (hostsubnet : HostSubnet)
    (hwf : ∀ e ∈ egressIPAM.CIDRAssignments, wellFormed lib e = true) :
    ((∃ e ∈ egressIPAM.CIDRAssignments, inRange lib hostsubnet.HostIP e = true) →
      ∃ pre e post, egressIPAM.CIDRAssignments = pre ++ e :: post
        ∧ (∀ x ∈ pre, inRange lib hostsubnet.HostIP x = false)
        ∧ inRange lib hostsubnet.HostIP e = true
        ∧ matchesHostSubnet lib egressIPAM hostsubnet = (true, e.CIDR))
    ∧ ((∀ e ∈ egressIPAM.CIDRAssignments, inRange lib hostsubnet.HostIP e = false) →
        matchesHostSubnet lib egressIPAM hostsubnet = (false, ""))
    ∧ ((matchesHostSubnet lib egressIPAM hostsubnet).1 = true ↔
        ∃ e ∈ egressIPAM.CIDRAssignments, inRange lib hostsubnet.HostIP e = true) := by
  refine ⟨fun hex => loop_hit lib _ _ hwf hex, fun hno => loop_miss lib _ _ hno, ?_⟩
  constructor
  · intro h
    by_contra hcon
    have hno : ∀ e ∈ egressIPAM.CIDRAssignments, inRange lib hostsubnet.HostIP e = false := by
      intro e he
      cases hin : inRange lib hostsubnet.HostIP e with
      | false => rfl
      | true => exact absurd ⟨e, he, hin⟩ hcon
    have := loop_miss lib _ _ hno
    unfold matchesHostSubnet at h
    rw [this] at h
    simp at h
  · intro hex
    obtain ⟨_, e, _, _, _, _, hres⟩ := loop_hit lib _ _ hwf hex
    unfold matchesHostSubnet
    rw [hres]

/-- Witness of C1: both entries of the example policy are well-formed and both
contain 10.1.0.5; the first one is reported. -/
theorem matchesHostSubnet_first_match_wins_witness :
    (∀ e ∈ examplePolicy.CIDRAssignments, wellFormed netV4 e = true)
    ∧ matchesHostSubnet netV4 examplePolicy (bareHostSubnet "node-a" "10.1.0.5")
        = (true, "10.1.0.0/24")
    ∧ ((matchesHostSubnet netV4 examplePolicy (bareHostSubnet "node-a" "10.1.0.5")).1 = true ↔
        ∃ e ∈ examplePolicy.CIDRAssignments,
          inRange netV4 (bareHostSubnet "node-a" "10.1.0.5").HostIP e = true) :=
  ⟨by decide, by decide,
    (matchesHostSubnet_first_match_wins netV4 examplePolicy (bareHostSubnet "node-a" "10.1.0.5")
      (by decide)).2.2⟩

/-- C2, as stated, fails: with the policy `["not-a-cidr", "10.1.0.0/24"]` and the
node address 10.1.0.5 the second entry is well-formed and contains the address,
yet `matchesHostSubnet` reports no match. -/
theorem matchesHostSubnet_malformed_entry_blocks :
    wellFormed netV4 ⟨"b", "10.1.0.0/24"⟩ = true
    ∧ inRange netV4 "10.1.0.5" ⟨"b", "10.1.0.0/24"⟩ = true
    ∧ wellFormed netV4 ⟨"a", "not-a-cidr"⟩ = false
    ∧ matchesHostSubnet netV4 brokenPolicy (bareHostSubnet "node-a" "10.1.0.5") = (false, "")
    ∧ matchesHostSubnet netV4 brokenPolicy (bareHostSubnet "node-a" "10.1.0.5")
        ≠ (true, "10.1.0.0/24") := by
  decide

/-- C2, amended. Matching stops at the first malformed entry: `matchesHostSubnet`
answers with the first containing entry among the entries that stand before the
first malformed one, and reports no match when there is none there, whatever
entries follow the malformed one. -/
theorem matchesHostSubnet_stops_at_malformed {N A : Type} (lib : NetLib N A)
    (egressIPAM : EgressIPAM) (hostsubnet : HostSubnet) :
    matchesHostSubnet lib egressIPAM hostsubnet
      = firstMatch lib hostsubnet.HostIP
          (egressIPAM.CIDRAssignments.takeWhile (wellFormed lib)) :=
  loop_eq_firstMatch_takeWhile lib hostsubnet.HostIP egressIPAM.CIDRAssignments

/-- C3. Set-equality gating of the IP sweep: going through the selected records,
`reconcileHSAssignedIPs` issues an update for a record exactly when the record's
current egress IPs and the planned IPs of its node (none when the node has no
plan entry) differ as sets, order and duplicates ignored; the record it then
writes carries the planned list (the nil slice when the plan is empty). The
updates are really sent: the server state the sweep leaves is the one the
client reaches when it is called on exactly those records, one after the
other, and the outcome logged with each record is the client's answer to that
call. -/
theorem reconcileHSAssignedIPs_set_gated {σ ε : Type} (client : Client σ ε)
    (rc : ReconcileContext) (s : σ) (sched : List Nat) :
    (reconcileHSAssignedIPs client rc s sched).log.map Prod.fst
      = rc.SelectedHostSubnets.filterMap (fun e =>
          if (rc.FinallyAssignedIPsByNode.get e.1).toFinset = e.2.EgressIPs.elems.toFinset
          then none
          else
            some { e.2 with
              EgressIPs := if (rc.FinallyAssignedIPsByNode.get e.1).isEmpty then none
                           else some (rc.FinallyAssignedIPsByNode.get e.1) })
    ∧ (reconcileHSAssignedIPs client rc s sched).state
      = (issueAll client s (rc.SelectedHostSubnets.filterMap (fun e =>
          if (rc.FinallyAssignedIPsByNode.get e.1).toFinset = e.2.EgressIPs.elems.toFinset
          then none
          else
            some { e.2 with
              EgressIPs := if (rc.FinallyAssignedIPsByNode.get e.1).isEmpty then none
                           else some (rc.FinallyAssignedIPsByNode.get e.1) }))).1
    ∧ (reconcileHSAssignedIPs client rc s sched).log
      = (issueAll client s (rc.SelectedHostSubnets.filterMap (fun e =>
          if (rc.FinallyAssignedIPsByNode.get e.1).toFinset = e.2.EgressIPs.elems.toFinset
          then none
          else
            some { e.2 with
              EgressIPs := if (rc.FinallyAssignedIPsByNode.get e.1).isEmpty then none
                           else some (rc.FinallyAssignedIPsByNode.get e.1) }))).2 := by
  have h := fanOut_issueAll client (reconcileHSAssignedIPsUnit client rc) (plannedIPUpdate rc)
    (ipUnit_eq client rc) s rc.SelectedHostSubnets
  unfold reconcileHSAssignedIPs
  exact ⟨fanOut_log _ (plannedIPUpdate rc) (ipUnit_log client rc) s rc.SelectedHostSubnets,
    h.1, h.2⟩

/-- Witness of C3 on a client that records what it is sent and refuses node B.
In the example context node A holds the planned IPs in another order and node B
holds none: the client has received exactly one record, node B with the planned
list, the log holds that record with the client's refusal, and the sweep
returns the refusal. -/
theorem reconcileHSAssignedIPs_set_gated_witness :
    (reconcileHSAssignedIPs (recordingClient ["node-b"]) exampleContext [] [0, 1]).state
      = [{ hostSubnetB with EgressIPs := some ["10.1.0.3"] }]
    ∧ (reconcileHSAssignedIPs (recordingClient ["node-b"]) exampleContext [] [0, 1]).log
      = [({ hostSubnetB with EgressIPs := some ["10.1.0.3"] }, some "refused")]
    ∧ (reconcileHSAssignedIPs (recordingClient ["node-b"]) exampleContext [] [0, 1]).err
      = some ⟨["refused"]⟩
    ∧ (reconcileHSAssignedIPs (recordingClient []) freshContext [] [0, 1]).state
      = [{ bareHostSubnet "node-a" "10.1.0.5" with EgressIPs := some ["10.1.0.1"] },
         { hostSubnetB with EgressIPs := some ["10.1.0.2"] }] :=
  ⟨(reconcileHSAssignedIPs_set_gated (recordingClient ["node-b"]) exampleContext []
      [0, 1]).2.1.trans (by decide),
    (reconcileHSAssignedIPs_set_gated (recordingClient ["node-b"]) exampleContext []
      [0, 1]).2.2.trans (by decide),
    by decide,
    (reconcileHSAssignedIPs_set_gated (recordingClient []) freshContext []
      [0, 1]).2.1.trans (by decide)⟩

/-- C4, the code at the failing input: the only selected record has an empty
CIDR list and an empty egress-IP list, and `removeHostsubnetAssignedIPsAndCIDRs`
still issues an update for it (carrying the very same record); the comparison
of either list with `[]string{}` is false whatever the list holds. -/
theorem removeHostsubnet_updates_empty_record :
    hostSubnetC.EgressCIDRs.elems = [] ∧ hostSubnetC.EgressIPs.elems = []
    ∧ reflectDeepEqual ⟨"ocpnetv1.HostSubnetEgressCIDR", hostSubnetC.EgressCIDRs⟩
        emptyStringSlice = false
    ∧ reflectDeepEqual ⟨"ocpnetv1.HostSubnetEgressIP", hostSubnetC.EgressIPs⟩
        emptyStringSlice = false
    ∧ (removeHostsubnetAssignedIPsAndCIDRs (scriptClient []) emptyRecordContext [] [0]).log
        = [(hostSubnetC, none)] := by
  decide

/-- C5, as stated, fails: node A is in `SelectedHostSubnets` and holds egress
data; `removeHostsubnetAssignedIPsAndCIDRs` issues an update for it that clears
both lists, and issues none for node C, which is outside the selection. -/
theorem removeHostsubnet_clears_selected_records :
    ("node-a", hostSubnetA) ∈ exampleContext.SelectedHostSubnets
    ∧ ("node-c", hostSubnetC) ∈ exampleContext.AllHostSubnets
    ∧ exampleContext.SelectedHostSubnets.lookup "node-c" = none
    ∧ ((removeHostsubnetAssignedIPsAndCIDRs (scriptClient []) exampleContext [] [0, 1]).log.map
        Prod.fst) = [cleared hostSubnetA, cleared hostSubnetB]
    ∧ hostSubnetA.EgressIPs = some ["10.1.0.2", "10.1.0.1"]
    ∧ (cleared hostSubnetA).EgressIPs = some []
    ∧ (cleared hostSubnetA).EgressCIDRs = some [] := by
  decide

/-- C5, amended. `removeHostsubnetAssignedIPsAndCIDRs` acts on the selected set:
every update it issues carries a record of `SelectedHostSubnets` with its
egress-CIDR and egress-IP lists set to empty and everything else as in the
context. -/
theorem removeHostsubnet_acts_on_selected {σ ε : Type} (client : Client σ ε)
    (rc : ReconcileContext) (s : σ) (sched : List Nat) (u : HostSubnet)
    (hu : u ∈ (removeHostsubnetAssignedIPsAndCIDRs client rc s sched).log.map Prod.fst) :
    ∃ e ∈ rc.SelectedHostSubnets,
      u = { e.2 with EgressCIDRs := some [], EgressIPs := some [] } := by
  unfold removeHostsubnetAssignedIPsAndCIDRs at hu
  rw [fanOut_log _ (fun _ v => some (cleared v)) (removeUnit_log client) s] at hu
  obtain ⟨e, he, heq⟩ := List.mem_filterMap.mp hu
  refine ⟨e, he, ?_⟩
  simp only [Option.some.injEq] at heq
  rw [← heq]
  rfl

/-- Witness of the amended C5 on the example context. -/
theorem removeHostsubnet_acts_on_selected_witness :
    ∃ e ∈ exampleContext.SelectedHostSubnets,
      cleared hostSubnetB = { e.2 with EgressCIDRs := some [], EgressIPs := some [] } :=
  removeHostsubnet_acts_on_selected (scriptClient []) exampleContext [] [0, 1]
    (cleared hostSubnetB) (by decide)

/-- C6, as stated, fails: nodes A and B both need their CIDR written and every
update fails; `assignCIDRsToHostSubnets` attempts only the update of node A and
returns that one error. -/
theorem assignCIDRs_fails_fast :
    (cidrWanted freshContext).length = 2
    ∧ ((assignCIDRsToHostSubnets (scriptClient []) freshContext
          [some "boom-a", some "boom-b"]).log.map Prod.fst)
        = [{ bareHostSubnet "node-a" "10.1.0.5" with EgressCIDRs := some ["10.1.0.0/24"] }]
    ∧ (assignCIDRsToHostSubnets (scriptClient []) freshContext
          [some "boom-a", some "boom-b"]).err = some "boom-a" := by
  decide

/-- C6, amended. `assignCIDRsToHostSubnets` goes through the plan sequentially
and stops at the first failed update: the updates it attempts are, in visiting
order, an initial run of the updates of the nodes whose assigned-CIDR set
differs from `{CIDR}`; when it returns nil it has attempted all of them and all
succeeded; when it returns an error, that error is the failure of the last
update attempted and every earlier one succeeded. -/
theorem assignCIDRs_stops_at_first_failure {σ ε : Type} (client : Client σ ε)
    (rc : ReconcileContext) (s : σ) :
    ((assignCIDRsToHostSubnets client rc s).log.map Prod.fst <+: cidrWanted rc)
    ∧ ((assignCIDRsToHostSubnets client rc s).err = none →
        (assignCIDRsToHostSubnets client rc s).log.map Prod.fst = cidrWanted rc
        ∧ ∀ x ∈ (assignCIDRsToHostSubnets client rc s).log, x.2 = none)
    ∧ (∀ err, (assignCIDRsToHostSubnets client rc s).err = some err →
        ∃ done last, (assignCIDRsToHostSubnets client rc s).log = done ++ [(last, some err)]
          ∧ ∀ x ∈ done, x.2 = none) := by
  rw [assignCIDRsToHostSubnets_eq]
  exact assignJobs_spec client rc s (plannedJobs rc)

/-- C7. Aggregated result of the IP sweep: under any schedule that delivers the
result of every unit once, `reconcileHSAssignedIPs` receives one result per
selected record, returns nil exactly when no issued update failed, and otherwise
returns an aggregate whose member errors are, up to order, the errors of the
failed updates. -/
theorem reconcileHSAssignedIPs_aggregates {σ ε : Type} (client : Client σ ε)
    (rc : ReconcileContext) (s : σ) (sched : List Nat)
    (hsched : sched.Perm (List.range rc.SelectedHostSubnets.length)) :
    (reconcileHSAssignedIPs client rc s sched).received.length = rc.SelectedHostSubnets.length
    ∧ ((reconcileHSAssignedIPs client rc s sched).err = none ↔
        ∀ x ∈ (reconcileHSAssignedIPs client rc s sched).log, x.2 = none)
    ∧ (∀ agg, (reconcileHSAssignedIPs client rc s sched).err = some agg →
        agg.Errors.Perm ((reconcileHSAssignedIPs client rc s sched).log.filterMap Prod.snd)) := by
  have h := fanIn_spec (reconcileHSAssignedIPsUnit client rc) (ipUnit_sent client rc) s
    rc.SelectedHostSubnets sched hsched
  exact ⟨receiveAll_length _ _ _, h.1, h.2⟩

/-- Witness of C7: two selected records, the results arriving in reverse order,
the one issued update failing. -/
theorem reconcileHSAssignedIPs_aggregates_witness :
    [1, 0].Perm (List.range exampleContext.SelectedHostSubnets.length)
    ∧ (reconcileHSAssignedIPs (scriptClient []) exampleContext [some "boom"] [1, 0]).err
        = some ⟨["boom"]⟩
    ∧ ((reconcileHSAssignedIPs (scriptClient []) exampleContext [some "boom"]
          [1, 0]).received.length = exampleContext.SelectedHostSubnets.length
      ∧ ((reconcileHSAssignedIPs (scriptClient []) exampleContext [some "boom"] [1, 0]).err
            = none ↔
          ∀ x ∈ (reconcileHSAssignedIPs (scriptClient []) exampleContext [some "boom"]
            [1, 0]).log, x.2 = none)
      ∧ (∀ agg, (reconcileHSAssignedIPs (scriptClient []) exampleContext [some "boom"]
            [1, 0]).err = some agg →
          agg.Errors.Perm ((reconcileHSAssignedIPs (scriptClient []) exampleContext
            [some "boom"] [1, 0]).log.filterMap Prod.snd))) :=
  ⟨by decide, by decide,
    reconcileHSAssignedIPs_aggregates (scriptClient []) exampleContext [some "boom"] [1, 0]
      (by decide)⟩

/-- C8. Idempotence of the two sweeps of the Convergence Applier against a
record store in which an update replaces the stored record of the same name:
when the context was read from the store (records filed under their names,
names unique in the store), every planned node is in `AllHostSubnets` and no
node is planned under two CIDRs, then every update of a first run of
`assignCIDRsToHostSubnets` (of `reconcileHSAssignedIPs`) succeeds, and a second
run of the same sweep with the same plan, on a context read again from the
store, issues no update. -/
theorem sweeps_idempotent (store : List HostSubnet) (rc : ReconcileContext)
    (sched sched2 : List Nat)
    (hnames : (store.map HostSubnet.GetName).Nodup)
    (hall : ReadFrom store rc.AllHostSubnets)
    (hsel : ReadFrom store rc.SelectedHostSubnets)
    (hpresent : ∀ job ∈ plannedJobs rc, rc.AllHostSubnets.has job.2 = true)
    (hone : ∀ j1 ∈ plannedJobs rc, ∀ j2 ∈ plannedJobs rc, j1.2 = j2.2 → j1.1 = j2.1) :
    (∀ rc2 : ReconcileContext,
        rc2.SelectedNodesByCIDR = rc.SelectedNodesByCIDR →
        ReadFrom (assignCIDRsToHostSubnets storeClient rc store).state rc2.AllHostSubnets →
        (∀ job ∈ plannedJobs rc, rc2.AllHostSubnets.has job.2 = true) →
        (∀ x ∈ (assignCIDRsToHostSubnets storeClient rc store).log, x.2 = none)
        ∧ (assignCIDRsToHostSubnets storeClient rc2
            (assignCIDRsToHostSubnets storeClient rc store).state).log = [])
    ∧ (∀ rc2 : ReconcileContext,
        rc2.FinallyAssignedIPsByNode = rc.FinallyAssignedIPsByNode →
        ReadFrom (reconcileHSAssignedIPs storeClient rc store sched).state
          rc2.SelectedHostSubnets →
        (∀ e ∈ rc2.SelectedHostSubnets, rc.SelectedHostSubnets.has e.1 = true) →
        (∀ x ∈ (reconcileHSAssignedIPs storeClient rc store sched).log, x.2 = none)
        ∧ (reconcileHSAssignedIPs storeClient rc2
            (reconcileHSAssignedIPs storeClient rc store sched).state sched2).log = []) := by
  constructor
  · intro rc2 hplan hread hpresent2
    obtain ⟨herr, hlog⟩ :=
      cidrSweep_second_run store rc rc2 hnames hall hpresent hone hplan hread hpresent2
    refine ⟨?_, hlog⟩
    rw [assignCIDRsToHostSubnets_eq] at herr ⊢
    exact ((assignJobs_spec storeClient rc store (plannedJobs rc)).2.1 herr).2
  · intro rc2 hips hread hsame
    exact ⟨(ipSweep_on_store rc store rc.SelectedHostSubnets hsel store rfl).2,
      ipSweep_second_run store rc rc2 sched sched2 hnames hsel hips hread hsame⟩

/-- Witness of C8 on the example: the first run of either sweep writes both
planned records, the second run on the re-read context writes none. -/
theorem sweeps_idempotent_witness :
    ((assignCIDRsToHostSubnets storeClient freshContext exampleStore).log.length = 2
      ∧ (assignCIDRsToHostSubnets storeClient
          (rereadContext freshContext
            (assignCIDRsToHostSubnets storeClient freshContext exampleStore).state)
          (assignCIDRsToHostSubnets storeClient freshContext exampleStore).state).log = [])
    ∧ ((reconcileHSAssignedIPs storeClient freshContext exampleStore [0, 1]).log.length = 2
      ∧ (reconcileHSAssignedIPs storeClient
          (rereadContext freshContext
            (reconcileHSAssignedIPs storeClient freshContext exampleStore [0, 1]).state)
          (reconcileHSAssignedIPs storeClient freshContext exampleStore [0, 1]).state
          [1, 0]).log = []) :=
  ⟨⟨by decide,
      ((sweeps_idempotent exampleStore freshContext [0, 1] [1, 0] (by decide) (by decide)
        (by decide) (by decide) (by decide)).1
        (rereadContext freshContext
          (assignCIDRsToHostSubnets storeClient freshContext exampleStore).state)
        rfl (by decide) (by decide)).2⟩,
    ⟨by decide,
      ((sweeps_idempotent exampleStore freshContext [0, 1] [1, 0] (by decide) (by decide)
        (by decide) (by decide) (by decide)).2
        (rereadContext freshContext
          (reconcileHSAssignedIPs storeClient freshContext exampleStore [0, 1]).state)
        rfl (by decide) (by decide)).2⟩⟩

/-- C9, the code at the failing input: the net namespace has an empty egress-IP
list and the namespace carries no annotation at all, so whatever the key of the
association annotation is, the claim allows no write; and
`cleanUpNamespaceAndNetNamespace` still issues an update of the net namespace. -/
theorem cleanUp_updates_idle_netnamespace (assocKey : String) :
    idleNetNamespace.EgressIPs.elems = []
    ∧ plainNamespace.meta.Annotations.has assocKey = false
    ∧ (cleanUpNamespaceAndNetNamespace (scriptClient [idleNetNamespace]) assocKey []
          plainNamespace).writes
        = [(Write.netNamespace idleNetNamespace, none)] :=
  ⟨by decide, rfl, rfl⟩

/-- C10. Only the two engine-owned fields are ever written: every record that
`reconcileHSAssignedIPs` sends in an update is a selected record of the context
with at most its egress-IP list changed; every record that
`assignCIDRsToHostSubnets` sends is the context's record of a planned node with
at most its egress-CIDR list changed; every record that
`removeHostsubnetAssignedIPsAndCIDRs` sends is a selected record of the context
with at most those two lists changed; and each of the three leaves the context
as it was. -/
theorem sweeps_write_only_owned_fields {σ ε : Type} (client : Client σ ε)
    (rc : ReconcileContext) (s : σ) (sched : List Nat) :
    (∀ u ∈ (reconcileHSAssignedIPs client rc s sched).log.map Prod.fst,
        ∃ e ∈ rc.SelectedHostSubnets, u = { e.2 with EgressIPs := u.EgressIPs })
    ∧ (∀ u ∈ (assignCIDRsToHostSubnets client rc s).log.map Prod.fst,
        ∃ e ∈ rc.SelectedNodesByCIDR, ∃ node ∈ e.2,
          u = { rc.AllHostSubnets.get node with EgressCIDRs := u.EgressCIDRs })
    ∧ (∀ u ∈ (removeHostsubnetAssignedIPsAndCIDRs client rc s sched).log.map Prod.fst,
        ∃ e ∈ rc.SelectedHostSubnets,
          u = { e.2 with EgressCIDRs := u.EgressCIDRs, EgressIPs := u.EgressIPs })
    ∧ (reconcileHSAssignedIPs client rc s sched).rc = rc
    ∧ (assignCIDRsToHostSubnets client rc s).rc = rc
    ∧ (removeHostsubnetAssignedIPsAndCIDRs client rc s sched).rc = rc := by
  refine ⟨?_, ?_, ?_, rfl, rfl, rfl⟩
  · intro u hu
    unfold reconcileHSAssignedIPs at hu
    rw [fanOut_log _ (plannedIPUpdate rc) (ipUnit_log client rc) s] at hu
    obtain ⟨e, he, heq⟩ := List.mem_filterMap.mp hu
    refine ⟨e, he, ?_⟩
    unfold plannedIPUpdate at heq
    split at heq
    · simp at heq
    · simp only [Option.some.injEq] at heq
      rw [← heq]
  · intro u hu
    rw [assignCIDRsToHostSubnets_eq] at hu
    have hpre := (assignJobs_spec client rc s (plannedJobs rc)).1
    have hmem : u ∈ cidrWanted rc := hpre.subset hu
    unfold cidrWanted at hmem
    obtain ⟨job, hjob, heq⟩ := List.mem_map.mp hmem
    have hjob2 : job ∈ plannedJobs rc := (List.mem_filter.mp hjob).1
    unfold plannedJobs at hjob2
    obtain ⟨e, he, hin⟩ := List.mem_flatMap.mp hjob2
    obtain ⟨node, hnode, hj⟩ := List.mem_map.mp hin
    refine ⟨e, he, node, hnode, ?_⟩
    rw [← heq, ← hj]
    rfl
  · intro u hu
    unfold removeHostsubnetAssignedIPsAndCIDRs at hu
    rw [fanOut_log _ (fun _ v => some (cleared v)) (removeUnit_log client) s] at hu
    obtain ⟨e, he, heq⟩ := List.mem_filterMap.mp hu
    refine ⟨e, he, ?_⟩
    simp only [Option.some.injEq] at heq
    rw [← heq]
    rfl

end EgressOperator
